import Mathlib

/-!
Verification development for the NuS-NimBLE-Serial repository: a shallow
embedding of the AT-command parser data model (src/NuATCommands.hpp) and of
the Nordic UART Service connection helpers (src/NuS.cpp), together with
theorems settling the specification claims.

The parser member functions declared in NuATCommands.hpp
(parseCommandLine, parseSingleCommand, parseWriteParameters,
printResultResponse, setBufferSize) have no implementation file in the
repository snapshot; those operations are modelled from the specification
text, as indicated in their doc comments.  Enumerations, member defaults
and NuS.cpp functions are embedded directly from the source.
-/

namespace NuS

/-- Pseudo-standardized result of AT command execution.
Embeds enum NuATCommandResult_t, src/NuATCommands.hpp lines 20-27.
Source note: "Negative means error and non-negative means success". -/
inductive NuATCommandResult_t where
  | AT_RESULT_SEND_FAIL
  | AT_RESULT_INVALID_PARAM
  | AT_RESULT_ERROR
  | AT_RESULT_OK
  | AT_RESULT_SEND_OK
  deriving DecidableEq, Repr

/-- The signed integer value of each NuATCommandResult_t enumerator, as
assigned in src/NuATCommands.hpp lines 22-26. -/
def NuATCommandResult_t.code : NuATCommandResult_t → Int
  | .AT_RESULT_SEND_FAIL => -3
  | .AT_RESULT_INVALID_PARAM => -2
  | .AT_RESULT_ERROR => -1
  | .AT_RESULT_OK => 0
  | .AT_RESULT_SEND_OK => 1

/-- Last parsing error (if any) at last received command.
Embeds enum NuATParsingResult_t, src/NuATCommands.hpp lines 33-45.
The constructor AT_PR_INVALID_PFX embeds the source enumerator for
"prefix token was not found" (renamed here). -/
inductive NuATParsingResult_t where
  | AT_PR_OK
  | AT_PR_NO_CALLBACKS
  | AT_PR_NO_PREAMBLE
  | AT_PR_NO_COMMANDS
  | AT_PR_INVALID_PFX
  | AT_PR_INVALID_CMD1
  | AT_PR_INVALID_CMD2
  | AT_PR_UNSUPPORTED_CMD
  | AT_PR_END_TOKEN_EXPECTED
  | AT_PR_SET_OVERFLOW
  deriving DecidableEq, Repr

/-- The application-supplied callback object (class NuATCommandCallbacks,
src/NuATCommands.hpp lines 54-144).  The four mandatory operations are
modelled as pure functions; the optional notification hooks
(onNonATCommand, onTest, onFinished) are recorded in the event trace of a
parse rather than carried here. -/
structure NuATCommandCallbacks where
  getATCommandId : List Char → Int
  onExecute : Int → NuATCommandResult_t
  onSet : Int → List (List Char) → NuATCommandResult_t
  onQuery : Int → NuATCommandResult_t

/-- Observable events of one parse: callback invocations and emitted
response text, in chronological order. -/
inductive ATEvent where
  | onNonATCommand (text : List Char)
  | onExecute (id : Int)
  | onSet (id : Int) (params : List (List Char))
  | onQuery (id : Int)
  | onTest (id : Int)
  | response (text : List Char)
  | onFinished (index : Nat) (result : NuATParsingResult_t)
  deriving DecidableEq, Repr

/-- The characters of the response text "OK". -/
def OK_text : List Char := ['O', 'K']

/-- The characters of the response text "ERROR". -/
def ERROR_text : List Char := ['E', 'R', 'R', 'O', 'R']

/-- Modelled from the spec: NuATCommandParser::printResultResponse is
declared at src/NuATCommands.hpp line 209 but its implementation file is
not in the repository snapshot.  Spec 4.3: ok and send-ok map to "OK";
error, invalid-param and send-fail map to "ERROR"; the emitted text never
contains the line-terminator sequence. -/
def printResultResponse (r : NuATCommandResult_t) : List Char :=
  match r with
  | .AT_RESULT_OK => OK_text
  | .AT_RESULT_SEND_OK => OK_text
  | .AT_RESULT_ERROR => ERROR_text
  | .AT_RESULT_INVALID_PARAM => ERROR_text
  | .AT_RESULT_SEND_FAIL => ERROR_text

/-- Parser state (class NuATCommandParser, src/NuATCommands.hpp lines
150-211).  Member defaults embed the in-class initializers:
lastParsingResult = AT_PR_OK (line 198), pCmdCallbacks = nullptr
(line 201), bufferSize = 42 (line 202). -/
structure NuATCommandParser where
  lastParsingResult : NuATParsingResult_t := .AT_PR_OK
  pCmdCallbacks : Option NuATCommandCallbacks := none
  bufferSize : Nat := 42

/-- A newly constructed parser: every member takes its in-class default. -/
def newParser : NuATCommandParser := {}

/-- Modelled from the spec: NuATCommandParser::setBufferSize is declared at
src/NuATCommands.hpp line 189 but its implementation file is not in the
repository snapshot.  Spec 6: "setBufferSize(n) - bytes available for name
+ parameter storage during one parse". -/
def setBufferSize (p : NuATCommandParser) (size : Nat) : NuATCommandParser :=
  { p with bufferSize := size }

/-- A character that may belong to a command name: the name scan stops at
the action tokens.  Spec 4.2 grammar: name := 1+ characters (no "=", "?",
";", or terminator); the ";" delimiter is removed by command splitting
before the name scan runs. -/
def nameChar (c : Char) : Bool := !(c == '=' || c == '?')

/-- The optional single-character command discriminator.
Spec 4.2 grammar: prefix := "&" | "+", optional before the name. -/
def pfxOf (cmd : List Char) : Option Char :=
  match cmd with
  | c :: _ => if c = '&' ∨ c = '+' then some c else none
  | [] => none

/-- The command token with its discriminator character stripped. -/
def bodyOf (cmd : List Char) : List Char :=
  match cmd with
  | c :: rest => if c = '&' ∨ c = '+' then rest else c :: rest
  | [] => []

/-- The command name: the maximal leading run of name characters after the
discriminator. -/
def nameOf (cmd : List Char) : List Char := (bodyOf cmd).takeWhile nameChar

/-- What follows the command name: empty, or text starting with "=" or "?". -/
def restOf (cmd : List Char) : List Char := (bodyOf cmd).dropWhile nameChar

/-- Split a character list on every occurrence of a separator character,
keeping empty segments.  Used for the ";" command delimiter and the ","
parameter delimiter of the spec 4.2 grammar. -/
def splitOnChar (sep : Char) : List Char → List (List Char)
  | [] => [[]]
  | c :: rest =>
    if c = sep then [] :: splitOnChar sep rest
    else
      match splitOnChar sep rest with
      | [] => [c]  :: []
      | g :: gs => (c :: g) :: gs

/-- Bytes needed to store a list of parameters in the scratch buffer, one
null terminator per parameter. -/
def paramBytes (ps : List (List Char)) : Nat :=
  (ps.map (fun p => p.length + 1)).sum

/-- Modelled from the spec: parameter storage of
NuATCommandParser::parseWriteParameters (declared at src/NuATCommands.hpp
line 207, implementation not in the repository snapshot).  Spec 9: an
arena-style fixed-capacity buffer "with explicit length/capacity tracked on
every append, rejecting appends that would exceed capacity".  Returns the
buffer occupancy reached and whether every parameter fit
(spec 4.2 step 9: overflow of the remaining capacity is SET_OVERFLOW). -/
def storeParams (bufferSize : Nat) (used : Nat) : List (List Char) → Nat × Bool
  | [] => (used, true)
  | p :: ps =>
    if bufferSize < used + p.length + 1 then (used, false)
    else storeParams bufferSize (used + p.length + 1) ps

/-- Modelled from the spec: NuATCommandParser::parseSingleCommand (declared
at src/NuATCommands.hpp line 205, implementation not in the repository
snapshot).  Spec 4.2 steps 4-10: scan discriminator and name; reject a name
whose copy (with its null terminator) would overflow the scratch buffer, an
empty name, or an "&" name of more than one character as INVALID_CMD1
before any write; reject non-alphabetic names as INVALID_CMD2; resolve the
name, negative is UNSUPPORTED_CMD; dispatch on the action suffix, demanding
end of token after "?" and "=?", splitting set parameters on "," and
storing them after the name in the scratch buffer, where overflow is
SET_OVERFLOW.  Returns the parsing result, the event trace, and the
scratch-buffer occupancy reached. -/
def parseSingleCommand (bs : Nat) (cb : NuATCommandCallbacks) (cmd : List Char) :
    NuATParsingResult_t × List ATEvent × Nat :=
  if bs < (nameOf cmd).length + 1 ∨ nameOf cmd = [] ∨
      (pfxOf cmd = some '&' ∧ 1 < (nameOf cmd).length) then
    (.AT_PR_INVALID_CMD1, [.response ERROR_text], 0)
  else if ¬ (nameOf cmd).all Char.isAlpha then
    (.AT_PR_INVALID_CMD2, [.response ERROR_text], (nameOf cmd).length + 1)
  else if cb.getATCommandId (nameOf cmd) < 0 then
    (.AT_PR_UNSUPPORTED_CMD, [.response ERROR_text], (nameOf cmd).length + 1)
  else if restOf cmd = [] then
    (.AT_PR_OK,
      [.onExecute (cb.getATCommandId (nameOf cmd)),
       .response (printResultResponse (cb.onExecute (cb.getATCommandId (nameOf cmd))))],
      (nameOf cmd).length + 1)
  else if restOf cmd = ['?'] then
    (.AT_PR_OK,
      [.onQuery (cb.getATCommandId (nameOf cmd)),
       .response (printResultResponse (cb.onQuery (cb.getATCommandId (nameOf cmd))))],
      (nameOf cmd).length + 1)
  else if (restOf cmd).head? = some '?' then
    (.AT_PR_END_TOKEN_EXPECTED, [.response ERROR_text], (nameOf cmd).length + 1)
  else if restOf cmd = ['=', '?'] then
    (.AT_PR_OK,
      [.onTest (cb.getATCommandId (nameOf cmd)), .response OK_text],
      (nameOf cmd).length + 1)
  else if (restOf cmd).take 2 = ['=', '?'] then
    (.AT_PR_END_TOKEN_EXPECTED, [.response ERROR_text], (nameOf cmd).length + 1)
  else if (restOf cmd).head? = some '=' then
    if (storeParams bs ((nameOf cmd).length + 1)
          (splitOnChar ',' ((restOf cmd).drop 1))).2 then
      (.AT_PR_OK,
        [.onSet (cb.getATCommandId (nameOf cmd)) (splitOnChar ',' ((restOf cmd).drop 1)),
         .response (printResultResponse
           (cb.onSet (cb.getATCommandId (nameOf cmd))
             (splitOnChar ',' ((restOf cmd).drop 1))))],
        (storeParams bs ((nameOf cmd).length + 1)
          (splitOnChar ',' ((restOf cmd).drop 1))).1)
    else
      (.AT_PR_SET_OVERFLOW, [.response ERROR_text],
        (storeParams bs ((nameOf cmd).length + 1)
          (splitOnChar ',' ((restOf cmd).drop 1))).1)
  else
    (.AT_PR_END_TOKEN_EXPECTED, [.response ERROR_text], (nameOf cmd).length + 1)

/-- Modelled from the spec: the per-command dispatch loop of
NuATCommandParser::parseCommandLine (declared at src/NuATCommands.hpp line
210, implementation not in the repository snapshot).  Spec 4.2 step 10 and
src/NuATCommands.hpp lines 130-143: each command is parsed in left-to-right
order; onFinished is invoked with the 0-based command index and the parsing
result after the command is parsed (and, on success, dispatched); on a
parsing result other than OK the remaining commands of the line are neither
parsed nor dispatched.  Returns the last parsing result, the event trace,
and the largest scratch-buffer occupancy reached. -/
def parseCommands (bs : Nat) (cb : NuATCommandCallbacks) :
    Nat → List (List Char) → NuATParsingResult_t × List ATEvent × Nat
  | _, [] => (.AT_PR_OK, [], 0)
  | idx, cmd :: rest =>
    if (parseSingleCommand bs cb cmd).1 = .AT_PR_OK then
      ((parseCommands bs cb (idx + 1) rest).1,
       (parseSingleCommand bs cb cmd).2.1
         ++ [.onFinished idx (parseSingleCommand bs cb cmd).1]
         ++ (parseCommands bs cb (idx + 1) rest).2.1,
       max (parseSingleCommand bs cb cmd).2.2 (parseCommands bs cb (idx + 1) rest).2.2)
    else
      ((parseSingleCommand bs cb cmd).1,
       (parseSingleCommand bs cb cmd).2.1
         ++ [.onFinished idx (parseSingleCommand bs cb cmd).1],
       (parseSingleCommand bs cb cmd).2.2)

/-- Modelled from the spec: NuATCommandParser::parseCommandLine (declared
at src/NuATCommands.hpp line 210, implementation not in the repository
snapshot).  Spec 4.2 steps 1-3: with no callbacks the whole line is
rejected as NO_CALLBACKS; a line that does not start with the two-character
preamble "AT" is NO_PREAMBLE and the whole line goes to the
onNonATCommand hook, with no per-command reporting; "AT" with nothing
after it is NO_COMMANDS; otherwise the text after the preamble is split
into commands on ";" and the dispatch loop runs. -/
def parseCommandLine :
    Nat → Option NuATCommandCallbacks → List Char →
      NuATParsingResult_t × List ATEvent × Nat
  | _, none, _ => (.AT_PR_NO_CALLBACKS, [], 0)
  | bs, some cb, line =>
    if line.take 2 = ['A', 'T'] then
      if line.drop 2 = [] then
        (.AT_PR_NO_COMMANDS, [.onFinished 0 .AT_PR_NO_COMMANDS], 0)
      else
        parseCommands bs cb 0 (splitOnChar ';' (line.drop 2))
    else
      (.AT_PR_NO_PREAMBLE, [.onNonATCommand line], 0)

/-- Projection of the onFinished events from an event trace. -/
def finishedOf : ATEvent → Option (Nat × NuATParsingResult_t)
  | .onFinished i r => some (i, r)
  | _ => none

/-- A concrete callback object used to witness the claims on small inputs:
command names F, AB and name resolve to supported identifiers, everything
else is unsupported. -/
def demoCallbacks : NuATCommandCallbacks where
  getATCommandId := fun n =>
    if n = ['F'] then 1
    else if n = ['A', 'B'] then 2
    else if n = ['n', 'a', 'm', 'e'] then 3
    else -1
  onExecute := fun _ => .AT_RESULT_OK
  onSet := fun _ _ => .AT_RESULT_OK
  onQuery := fun _ => .AT_RESULT_OK

/-- FreeRTOS constant: an unbounded semaphore wait (0xFFFFFFFF ticks). -/
def portMAX_DELAY : Nat := 4294967295

/-- FreeRTOS tick rate used by pdMS_TO_TICKS (1000 Hz on the target). -/
def configTICK_RATE_HZ : Nat := 1000

/-- FreeRTOS millisecond-to-tick conversion used by NordicUARTService::connect. -/
def pdMS_TO_TICKS (ms : Nat) : Nat := ms * configTICK_RATE_HZ / 1000

/-- The tick count NordicUARTService::connect requests from xSemaphoreTake:
src/NuS.cpp line 98, (timeoutMillis == 0) ? portMAX_DELAY :
pdMS_TO_TICKS(timeoutMillis). -/
def connectWaitTicks (timeoutMillis : Nat) : Nat :=
  if timeoutMillis = 0 then portMAX_DELAY else pdMS_TO_TICKS timeoutMillis

/-- Embeds NordicUARTService::connect, src/NuS.cpp lines 96-100.  The
outcome of xSemaphoreTake on the peer-connected semaphore is abstracted as
a function from the requested tick count to success. -/
def connect (timeoutMillis : Nat) (semTake : Nat → Bool) : Bool :=
  semTake (connectWaitTicks timeoutMillis)

/-- The NimBLE server state getMTU consults: the list of peer connection
identifiers (getPeerDevices) and the negotiated MTU per peer (getPeerMTU). -/
structure NimBLEServer where
  peerDevices : List Nat
  peerMTU : Nat → Nat

/-- The NordicUARTService state getMTU reads: the connected flag and the
server pointer (src/NuS.cpp). -/
structure NordicUARTService where
  connected : Bool
  pServer : Option NimBLEServer

/-- Embeds NordicUARTService::getMTU, src/NuS.cpp lines 199-209: if
connected and the server pointer is set and the peer list is non-empty,
return the MTU of the first peer, else 0. -/
def getMTU (s : NordicUARTService) : Nat :=
  if s.connected then
    match s.pServer with
    | some srv =>
      match srv.peerDevices with
      | [] => 0
      | id :: _ => srv.peerMTU id
    | none => 0
  else 0

theorem storeParams_fst_le (bs : Nat) (ps : List (List Char)) :
    ∀ u : Nat, u ≤ bs → (storeParams bs u ps).1 ≤ bs := by
  induction ps with
  | nil => intro u h; exact h
  | cons p ps ih =>
    intro u h
    unfold storeParams
    split
    · exact h
    · next hng => exact ih _ (by omega)

theorem storeParams_spec (bs : Nat) (ps : List (List Char)) :
    ∀ u : Nat, u + paramBytes ps ≤ bs →
      storeParams bs u ps = (u + paramBytes ps, true) := by
  induction ps with
  | nil => intro u h; simp [storeParams, paramBytes]
  | cons p ps ih =>
    intro u h
    have hb : paramBytes (p :: ps) = p.length + 1 + paramBytes ps := by
      simp [paramBytes]
    rw [hb] at h ⊢
    unfold storeParams
    rw [if_neg (by omega)]
    rw [ih (u + p.length + 1) (by omega)]
    have : u + p.length + 1 + paramBytes ps = u + (p.length + 1 + paramBytes ps) := by ring
    rw [this]

theorem storeParams_overflow (bs : Nat) (ps : List (List Char)) :
    ∀ u : Nat, u ≤ bs → bs < u + paramBytes ps →
      (storeParams bs u ps).2 = false := by
  induction ps with
  | nil => intro u hu h; simp [paramBytes] at h; omega
  | cons p ps ih =>
    intro u hu h
    have hb : paramBytes (p :: ps) = p.length + 1 + paramBytes ps := by
      simp [paramBytes]
    rw [hb] at h
    unfold storeParams
    split
    · rfl
    · next hng => exact ih _ (by omega) (by omega)

theorem nameChar_of_isAlpha (c : Char) (h : c.isAlpha = true) : nameChar c = true := by
  rcases eq_or_ne c '=' with h1 | h1
  · subst h1; exact absurd h (by decide)
  rcases eq_or_ne c '?' with h2 | h2
  · subst h2; exact absurd h (by decide)
  simp [nameChar, h1, h2]

theorem isAlpha_not_mark (c : Char) (h : c.isAlpha = true) : ¬(c = '&' ∨ c = '+') := by
  rintro (rfl | rfl) <;> exact absurd h (by decide)

theorem alpha_split (ptext : List Char) (l : List Char) (h : l.all Char.isAlpha = true) :
    (l ++ '=' :: ptext).takeWhile nameChar = l
    ∧ (l ++ '=' :: ptext).dropWhile nameChar = '=' :: ptext := by
  induction l with
  | nil => constructor <;> simp [List.takeWhile, List.dropWhile, nameChar]
  | cons a l ih =>
    simp only [List.all_cons, Bool.and_eq_true] at h
    have ha := nameChar_of_isAlpha a h.1
    have := ih h.2
    constructor <;>
      simp [List.takeWhile_cons, List.dropWhile_cons, ha, this.1, this.2]


theorem set_shape (name ptext : List Char) (hname : name ≠ [])
    (halpha : name.all Char.isAlpha = true) :
    nameOf (name ++ '=' :: ptext) = name
    ∧ restOf (name ++ '=' :: ptext) = '=' :: ptext
    ∧ pfxOf (name ++ '=' :: ptext) = none := by
  cases name with
  | nil => exact absurd rfl hname
  | cons a l =>
    simp only [List.all_cons, Bool.and_eq_true] at halpha
    have hmark := isAlpha_not_mark a halpha.1
    have hbody : bodyOf ((a :: l) ++ '=' :: ptext) = a :: (l ++ '=' :: ptext) := by
      simp [bodyOf, hmark]
    have hsplit := alpha_split ptext (a :: l)
      (by simp [List.all_cons, halpha.1, halpha.2])
    refine ⟨?_, ?_, ?_⟩
    · rw [nameOf, hbody]
      have := hsplit.1
      simpa using this
    · rw [restOf, hbody]
      have := hsplit.2
      simpa using this
    · simp [pfxOf, hmark]

theorem parseSingleCommand_set (bs : Nat) (cb : NuATCommandCallbacks)
    (name ptext : List Char) (hname : name ≠ [])
    (halpha : name.all Char.isAlpha = true)
    (hfit : name.length + 1 ≤ bs)
    (hq : ptext.head? ≠ some '?')
    (hid : 0 ≤ cb.getATCommandId name) :
    parseSingleCommand bs cb (name ++ '=' :: ptext) =
      if (storeParams bs (name.length + 1) (splitOnChar ',' ptext)).2 then
        (.AT_PR_OK,
          [.onSet (cb.getATCommandId name) (splitOnChar ',' ptext),
           .response (printResultResponse
             (cb.onSet (cb.getATCommandId name) (splitOnChar ',' ptext)))],
          (storeParams bs (name.length + 1) (splitOnChar ',' ptext)).1)
      else
        (.AT_PR_SET_OVERFLOW, [.response ERROR_text],
          (storeParams bs (name.length + 1) (splitOnChar ',' ptext)).1) := by
  obtain ⟨hn, hr, hp⟩ := set_shape name ptext hname halpha
  have c4 : ¬('=' :: ptext = ['=', '?']) := by
    intro hh
    have h2 : ptext = ['?'] := by
      injection hh
    subst h2
    exact hq rfl
  have c5 : ¬(('=' :: ptext).take 2 = ['=', '?']) := by
    cases ptext with
    | nil => simp
    | cons c t =>
      simp only [List.take_succ_cons, List.take_zero]
      intro hh
      have h2 : c = '?' := by
        have := hh
        simp at this
        exact this
      subst h2
      exact hq rfl
  unfold parseSingleCommand
  rw [hn, hr, hp]
  rw [if_neg (by push_neg; exact ⟨by omega, hname, by simp⟩)]
  rw [if_neg (by simp [halpha])]
  rw [if_neg (by omega)]
  rw [if_neg (by simp)]
  rw [if_neg (by simp)]
  rw [if_neg (by simp)]
  rw [if_neg c4]
  rw [if_neg c5]
  rw [if_pos (by simp)]
  simp


theorem parseSingleCommand_basic (bs : Nat) (cb : NuATCommandCallbacks) (cmd : List Char) :
    (parseSingleCommand bs cb cmd).2.2 ≤ bs
    ∧ ∀ (j : Nat) (res : NuATParsingResult_t),
        ATEvent.onFinished j res ∉ (parseSingleCommand bs cb cmd).2.1 := by
  unfold parseSingleCommand
  by_cases h1 : bs < (nameOf cmd).length + 1 ∨ nameOf cmd = [] ∨
      (pfxOf cmd = some '&' ∧ 1 < (nameOf cmd).length)
  · rw [if_pos h1]
    exact ⟨by norm_num, fun j res => by simp⟩
  rw [if_neg h1]
  have hlen : (nameOf cmd).length + 1 ≤ bs := by
    by_contra hc
    exact h1 (Or.inl (by omega))
  by_cases h2 : ¬ ((nameOf cmd).all Char.isAlpha = true)
  · rw [if_pos h2]
    exact ⟨hlen, fun j res => by simp⟩
  rw [if_neg h2]
  by_cases h3 : cb.getATCommandId (nameOf cmd) < 0
  · rw [if_pos h3]
    exact ⟨hlen, fun j res => by simp⟩
  rw [if_neg h3]
  by_cases h4 : restOf cmd = []
  · rw [if_pos h4]
    exact ⟨hlen, fun j res => by simp⟩
  rw [if_neg h4]
  by_cases h5 : restOf cmd = ['?']
  · rw [if_pos h5]
    exact ⟨hlen, fun j res => by simp⟩
  rw [if_neg h5]
  by_cases h6 : (restOf cmd).head? = some '?'
  · rw [if_pos h6]
    exact ⟨hlen, fun j res => by simp⟩
  rw [if_neg h6]
  by_cases h7 : restOf cmd = ['=', '?']
  · rw [if_pos h7]
    exact ⟨hlen, fun j res => by simp⟩
  rw [if_neg h7]
  by_cases h8 : (restOf cmd).take 2 = ['=', '?']
  · rw [if_pos h8]
    exact ⟨hlen, fun j res => by simp⟩
  rw [if_neg h8]
  by_cases h9 : (restOf cmd).head? = some '='
  · rw [if_pos h9]
    by_cases h10 : (storeParams bs ((nameOf cmd).length + 1)
        (splitOnChar ',' ((restOf cmd).drop 1))).2 = true
    · rw [if_pos h10]
      exact ⟨storeParams_fst_le _ _ _ hlen, fun j res => by simp⟩
    · rw [if_neg h10]
      exact ⟨storeParams_fst_le _ _ _ hlen, fun j res => by simp⟩
  · rw [if_neg h9]
    exact ⟨hlen, fun j res => by simp⟩

theorem parseSingleCommand_occ_le (bs : Nat) (cb : NuATCommandCallbacks) (cmd : List Char) :
    (parseSingleCommand bs cb cmd).2.2 ≤ bs :=
  (parseSingleCommand_basic bs cb cmd).1

theorem parseSingleCommand_no_finished (bs : Nat) (cb : NuATCommandCallbacks)
    (cmd : List Char) (j : Nat) (res : NuATParsingResult_t) :
    ATEvent.onFinished j res ∉ (parseSingleCommand bs cb cmd).2.1 :=
  (parseSingleCommand_basic bs cb cmd).2 j res

theorem parseCommandLine_none (bs : Nat) (line : List Char) :
    parseCommandLine bs none line = (.AT_PR_NO_CALLBACKS, [], 0) := rfl

theorem parseCommandLine_some (bs : Nat) (cb : NuATCommandCallbacks) (line : List Char) :
    parseCommandLine bs (some cb) line =
      if line.take 2 = ['A', 'T'] then
        if line.drop 2 = [] then
          (.AT_PR_NO_COMMANDS, [.onFinished 0 .AT_PR_NO_COMMANDS], 0)
        else
          parseCommands bs cb 0 (splitOnChar ';' (line.drop 2))
      else
        (.AT_PR_NO_PREAMBLE, [.onNonATCommand line], 0) := rfl

theorem parseCommands_occ_le (bs : Nat) (cb : NuATCommandCallbacks)
    (cmds : List (List Char)) : ∀ idx : Nat, (parseCommands bs cb idx cmds).2.2 ≤ bs := by
  induction cmds with
  | nil => intro idx; simp [parseCommands]
  | cons c rest ih =>
    intro idx
    unfold parseCommands
    split
    · exact max_le (parseSingleCommand_occ_le _ _ _) (ih _)
    · exact parseSingleCommand_occ_le _ _ _

theorem parseCommandLine_occ_le (bs : Nat) (cb : Option NuATCommandCallbacks)
    (line : List Char) : (parseCommandLine bs cb line).2.2 ≤ bs := by
  cases cb with
  | none => rw [parseCommandLine_none]; norm_num
  | some c =>
    rw [parseCommandLine_some]
    split
    · split
      · norm_num
      · exact parseCommands_occ_le _ _ _ _
    · norm_num

theorem parseCommands_finished_lt (bs : Nat) (cb : NuATCommandCallbacks)
    (cmds : List (List Char)) :
    ∀ (s j : Nat) (res : NuATParsingResult_t),
      ATEvent.onFinished j res ∈ (parseCommands bs cb s cmds).2.1 →
      j < s + cmds.length := by
  induction cmds with
  | nil => intro s j res h; simp [parseCommands] at h
  | cons c rest ih =>
    intro s j res h
    unfold parseCommands at h
    split at h
    · simp only [List.append_assoc, List.mem_append, List.mem_singleton] at h
      rcases h with h | h | h
      · exact absurd h (parseSingleCommand_no_finished _ _ _ _ _)
      · simp only [ATEvent.onFinished.injEq] at h
        simp [h.1]
      · have := ih (s + 1) j res h
        simp only [List.length_cons]
        omega
    · simp only [List.mem_append, List.mem_singleton] at h
      rcases h with h | h
      · exact absurd h (parseSingleCommand_no_finished _ _ _ _ _)
      · simp only [ATEvent.onFinished.injEq] at h
        simp [h.1]

theorem parseCommands_stop (bs : Nat) (cb : NuATCommandCallbacks) :
    ∀ (cmds : List (List Char)) (s i : Nat) (hi : i < cmds.length),
      (∀ c ∈ cmds.take i, (parseSingleCommand bs cb c).1 = .AT_PR_OK) →
      (parseSingleCommand bs cb (cmds.get ⟨i, hi⟩)).1 ≠ .AT_PR_OK →
      parseCommands bs cb s cmds = parseCommands bs cb s (cmds.take (i + 1))
      ∧ (parseCommands bs cb s cmds).1 =
          (parseSingleCommand bs cb (cmds.get ⟨i, hi⟩)).1
      ∧ ATEvent.onFinished (s + i) ((parseSingleCommand bs cb (cmds.get ⟨i, hi⟩)).1)
          ∈ (parseCommands bs cb s cmds).2.1 := by
  intro cmds
  induction cmds with
  | nil => intro s i hi; simp at hi
  | cons c rest ih =>
    intro s i hi hok herr
    cases i with
    | zero =>
      have hc : (parseSingleCommand bs cb c).1 ≠ .AT_PR_OK := herr
      refine ⟨?_, ?_, ?_⟩
      · simp only [List.take_succ_cons, List.take_zero]
        unfold parseCommands
        rw [if_neg hc, if_neg hc]
      · unfold parseCommands
        rw [if_neg hc]
        rfl
      · unfold parseCommands
        rw [if_neg hc]
        simp
    | succ i2 =>
      have hc : (parseSingleCommand bs cb c).1 = .AT_PR_OK := by
        apply hok c
        simp [List.take_succ_cons]
      have hi2 : i2 < rest.length := by
        simp only [List.length_cons] at hi
        omega
      have hok2 : ∀ x ∈ rest.take i2, (parseSingleCommand bs cb x).1 = .AT_PR_OK := by
        intro x hx
        apply hok x
        simp [List.take_succ_cons, hx]
      have herr2 : (parseSingleCommand bs cb (rest.get ⟨i2, hi2⟩)).1 ≠ .AT_PR_OK := herr
      obtain ⟨e1, e2, e3⟩ := ih (s + 1) i2 hi2 hok2 herr2
      refine ⟨?_, ?_, ?_⟩
      · simp only [List.take_succ_cons]
        unfold parseCommands
        rw [if_pos hc, if_pos hc, e1]
      · unfold parseCommands
        rw [if_pos hc]
        exact e2
      · unfold parseCommands
        rw [if_pos hc]
        simp only [List.append_assoc, List.mem_append, List.mem_singleton]
        right; right
        have harith : s + (i2 + 1) = s + 1 + i2 := by omega
        rw [harith]
        exact e3

theorem parseSingleCommand_amp (bs : Nat) (cb : NuATCommandCallbacks) (c : Char)
    (hbs : 2 ≤ bs) (hc : c.isAlpha = true) :
    parseSingleCommand bs cb ['&', c] =
      if cb.getATCommandId [c] < 0 then
        (.AT_PR_UNSUPPORTED_CMD, [.response ERROR_text], 2)
      else
        (.AT_PR_OK,
          [.onExecute (cb.getATCommandId [c]),
           .response (printResultResponse (cb.onExecute (cb.getATCommandId [c])))],
          2) := by
  have hnc := nameChar_of_isAlpha c hc
  have hn : nameOf ['&', c] = [c] := by
    simp [nameOf, bodyOf, List.takeWhile_cons, hnc]
  have hr : restOf ['&', c] = [] := by
    simp [restOf, bodyOf, List.dropWhile_cons, hnc]
  have hp : pfxOf ['&', c] = some '&' := by
    simp [pfxOf]
  unfold parseSingleCommand
  rw [hn, hr, hp]
  rw [if_neg ?hcmd1]
  case hcmd1 =>
    rintro (h | h | ⟨-, h⟩)
    · simp at h; omega
    · simp at h
    · simp at h
  rw [if_neg (by simp [hc])]
  by_cases hid : cb.getATCommandId [c] < 0
  · rw [if_pos hid, if_pos hid]
    simp
  · rw [if_neg hid, if_neg hid]
    rw [if_pos rfl]
    simp

/-- Claim C6: the execution-result type has exactly five values with the
signed encoding send-fail = -3, invalid-param = -2, error = -1, ok = 0,
send-ok = 1; every negative value is one of the three error outcomes and
every non-negative value is one of the two success outcomes. -/
theorem execution_result_five_way_signed_encoding :
    (∀ r : NuATCommandResult_t,
      r = .AT_RESULT_SEND_FAIL ∨ r = .AT_RESULT_INVALID_PARAM ∨ r = .AT_RESULT_ERROR ∨
        r = .AT_RESULT_OK ∨ r = .AT_RESULT_SEND_OK)
    ∧ NuATCommandResult_t.code .AT_RESULT_SEND_FAIL = -3
    ∧ NuATCommandResult_t.code .AT_RESULT_INVALID_PARAM = -2
    ∧ NuATCommandResult_t.code .AT_RESULT_ERROR = -1
    ∧ NuATCommandResult_t.code .AT_RESULT_OK = 0
    ∧ NuATCommandResult_t.code .AT_RESULT_SEND_OK = 1
    ∧ (∀ r s : NuATCommandResult_t, r.code = s.code ↔ r = s)
    ∧ (∀ r : NuATCommandResult_t,
        (r.code < 0 ↔
          (r = .AT_RESULT_SEND_FAIL ∨ r = .AT_RESULT_INVALID_PARAM ∨ r = .AT_RESULT_ERROR))
        ∧ (0 ≤ r.code ↔ (r = .AT_RESULT_OK ∨ r = .AT_RESULT_SEND_OK))) := by
  refine ⟨fun r => ?_, rfl, rfl, rfl, rfl, rfl, fun r s => ?_, fun r => ?_⟩
  · cases r <;> decide
  · cases r <;> cases s <;> decide
  · cases r <;> decide

/-- Claim C7: printResultResponse emits "OK" for ok and send-ok, "ERROR"
for error, invalid-param and send-fail, and the emitted text never
contains a line-terminator character (hence never the CR+LF sequence). -/
theorem print_result_response_mapping :
    printResultResponse .AT_RESULT_OK = ['O', 'K']
    ∧ printResultResponse .AT_RESULT_SEND_OK = ['O', 'K']
    ∧ printResultResponse .AT_RESULT_ERROR = ['E', 'R', 'R', 'O', 'R']
    ∧ printResultResponse .AT_RESULT_INVALID_PARAM = ['E', 'R', 'R', 'O', 'R']
    ∧ printResultResponse .AT_RESULT_SEND_FAIL = ['E', 'R', 'R', 'O', 'R']
    ∧ ∀ r : NuATCommandResult_t,
        '\r' ∉ printResultResponse r ∧ '\n' ∉ printResultResponse r := by
  refine ⟨rfl, rfl, rfl, rfl, rfl, fun r => ?_⟩
  cases r <;> decide

/-- Claim C8: a newly constructed parser, on which setBufferSize has never
been called, has a scratch-buffer capacity of exactly 42 bytes; the only
operation changing that capacity is setBufferSize. -/
theorem default_buffer_size_is_42 :
    newParser.bufferSize = 42
    ∧ ∀ (p : NuATCommandParser) (n : Nat), (setBufferSize p n).bufferSize = n :=
  ⟨rfl, fun _ _ => rfl⟩

/-- Claim C9: connect with timeoutMillis = 0 does not poll: it requests an
unbounded wait of portMAX_DELAY ticks (which is a positive tick count); and
for every timeout, connect returns true exactly when the semaphore take
succeeds within the requested tick count. -/
theorem connect_zero_timeout_waits_forever :
    connectWaitTicks 0 = portMAX_DELAY
    ∧ 0 < portMAX_DELAY
    ∧ (∀ semTake : Nat → Bool, connect 0 semTake = semTake portMAX_DELAY)
    ∧ ∀ (timeoutMillis : Nat) (semTake : Nat → Bool),
        (connect timeoutMillis semTake = true ↔
          semTake (connectWaitTicks timeoutMillis) = true) :=
  ⟨rfl, by norm_num [portMAX_DELAY], fun _ => rfl, fun _ _ => Iff.rfl⟩

/-- Claim C10: getMTU returns 0 whenever the connected flag is false, the
server pointer is null, or the peer-device list is empty; a nonzero MTU is
only ever the MTU reported for the first peer of the peer-device list. -/
theorem getMTU_zero_or_first_peer (s : NordicUARTService) :
    (s.connected = false → getMTU s = 0)
    ∧ (s.pServer = none → getMTU s = 0)
    ∧ (∀ srv, s.pServer = some srv → srv.peerDevices = [] → getMTU s = 0)
    ∧ (getMTU s ≠ 0 →
        s.connected = true ∧ ∃ srv id rest, s.pServer = some srv ∧
          srv.peerDevices = id :: rest ∧ getMTU s = srv.peerMTU id) := by
  obtain ⟨c, os⟩ := s
  refine ⟨fun hc => ?_, fun hs => ?_, fun srv hs hd => ?_, fun h => ?_⟩
  · subst hc; rfl
  · subst hs; cases c <;> rfl
  · subst hs; cases c <;> simp [getMTU, hd]
  · cases c with
    | false => exact absurd rfl h
    | true =>
      cases os with
      | none => exact absurd rfl h
      | some srv =>
        cases hl : srv.peerDevices with
        | nil => simp [getMTU, hl] at h
        | cons id rest =>
          exact ⟨rfl, srv, id, rest, rfl, hl, by simp [getMTU, hl]⟩

/-- Claim C3: for the command line "AT&F;&G;&H" where &F resolves to a
supported command and &G to an unsupported one, onFinished is invoked with
(0, OK) and then (1, UNSUPPORTED_CMD), and the command &H is never parsed,
dispatched or reported: the whole parse outcome equals that of the line
"AT&F;&G" without &H.  (Requires a buffer of at least 2 bytes, enough for
a one-letter name and its terminator.) -/
theorem chained_line_abandoned_after_unsupported (bs : Nat) (cb : NuATCommandCallbacks) (hbs : 2 ≤ bs)
    (hF : 0 ≤ cb.getATCommandId ['F']) (hG : cb.getATCommandId ['G'] < 0) :
    (parseCommandLine bs (some cb)
        ['A', 'T', '&', 'F', ';', '&', 'G', ';', '&', 'H']).2.1.filterMap finishedOf
      = [(0, .AT_PR_OK), (1, .AT_PR_UNSUPPORTED_CMD)]
    ∧ parseCommandLine bs (some cb) ['A', 'T', '&', 'F', ';', '&', 'G', ';', '&', 'H']
        = parseCommandLine bs (some cb) ['A', 'T', '&', 'F', ';', '&', 'G'] := by
  have hFe := parseSingleCommand_amp bs cb 'F' hbs (by decide)
  rw [if_neg (by omega)] at hFe
  have hGe := parseSingleCommand_amp bs cb 'G' hbs (by decide)
  rw [if_pos hG] at hGe
  have hsplit3 : splitOnChar ';'
      (List.drop 2 ['A', 'T', '&', 'F', ';', '&', 'G', ';', '&', 'H'])
      = [['&', 'F'], ['&', 'G'], ['&', 'H']] := by decide
  have hsplit2 : splitOnChar ';' (List.drop 2 ['A', 'T', '&', 'F', ';', '&', 'G'])
      = [['&', 'F'], ['&', 'G']] := by decide
  have hGstop : ∀ (idx : Nat) (rest : List (List Char)),
      parseCommands bs cb idx (['&', 'G'] :: rest) =
        (.AT_PR_UNSUPPORTED_CMD,
         [.response ERROR_text, .onFinished idx .AT_PR_UNSUPPORTED_CMD], 2) := by
    intro idx rest
    unfold parseCommands
    rw [hGe, if_neg (by decide)]
    simp
  have hline : ∀ rest : List (List Char),
      parseCommands bs cb 0 (['&', 'F'] :: ['&', 'G'] :: rest) =
        (.AT_PR_UNSUPPORTED_CMD,
         [.onExecute (cb.getATCommandId ['F']),
          .response (printResultResponse (cb.onExecute (cb.getATCommandId ['F']))),
          .onFinished 0 .AT_PR_OK,
          .response ERROR_text,
          .onFinished 1 .AT_PR_UNSUPPORTED_CMD],
         2) := by
    intro rest
    unfold parseCommands
    rw [hFe, hGstop]
    simp
  have hL3 : parseCommandLine bs (some cb)
      ['A', 'T', '&', 'F', ';', '&', 'G', ';', '&', 'H'] =
      parseCommands bs cb 0 [['&', 'F'], ['&', 'G'], ['&', 'H']] := by
    rw [parseCommandLine_some, if_pos (by decide), if_neg (by decide), hsplit3]
  have hL2 : parseCommandLine bs (some cb) ['A', 'T', '&', 'F', ';', '&', 'G'] =
      parseCommands bs cb 0 [['&', 'F'], ['&', 'G']] := by
    rw [parseCommandLine_some, if_pos (by decide), if_neg (by decide), hsplit2]
  refine ⟨?_, ?_⟩
  · rw [hL3, hline]
    simp [finishedOf]
  · rw [hL3, hL2, hline, hline]

/-- Witness for claim C3 at the concrete callbacks demoCallbacks (F is
supported, G is not) and the default buffer size 42. -/
theorem chained_line_abandoned_witness :
    (parseCommandLine 42 (some demoCallbacks)
        ['A', 'T', '&', 'F', ';', '&', 'G', ';', '&', 'H']).2.1.filterMap finishedOf
      = [(0, .AT_PR_OK), (1, .AT_PR_UNSUPPORTED_CMD)]
    ∧ parseCommandLine 42 (some demoCallbacks)
        ['A', 'T', '&', 'F', ';', '&', 'G', ';', '&', 'H']
        = parseCommandLine 42 (some demoCallbacks) ['A', 'T', '&', 'F', ';', '&', 'G'] :=
  chained_line_abandoned_after_unsupported 42 demoCallbacks (by decide) (by decide)
    (by decide)

/-- Claim C4: a line that does not begin with the two-character preamble
"AT" parses to NO_PREAMBLE, the whole line is delivered to the
onNonATCommand hook, and no other event occurs: no action callback and no
onFinished report. -/
theorem no_preamble_routes_whole_line (bs : Nat) (cb : NuATCommandCallbacks)
    (line : List Char) (h : line.take 2 ≠ ['A', 'T']) :
    parseCommandLine bs (some cb) line =
      (.AT_PR_NO_PREAMBLE, [.onNonATCommand line], 0) := by
  rw [parseCommandLine_some, if_neg h]

/-- Witness for claim C4 at the concrete line "hello". -/
theorem no_preamble_routes_whole_line_witness :
    parseCommandLine 42 (some demoCallbacks) ['h', 'e', 'l', 'l', 'o'] =
      (.AT_PR_NO_PREAMBLE, [.onNonATCommand ['h', 'e', 'l', 'l', 'o']], 0) :=
  no_preamble_routes_whole_line 42 demoCallbacks ['h', 'e', 'l', 'l', 'o'] (by decide)

/-- Claim C5: a set command passes onSet exactly the parameter strings
obtained by splitting the text after the "=" on commas, in left-to-right
order, empty parameters preserved; the theorem gives the full outcome of
any set command name=ptext whose name resolves and whose parameters fit
the buffer.  The witness instantiates it at "name=a,b,,c", yielding the
four parameters "a", "b", "", "c" in that order. -/
theorem set_parameters_split_on_commas (bs : Nat) (cb : NuATCommandCallbacks)
    (name ptext : List Char) (hname : name ≠ [])
    (halpha : name.all Char.isAlpha = true)
    (hq : ptext.head? ≠ some '?')
    (hid : 0 ≤ cb.getATCommandId name)
    (hfit : name.length + 1 + paramBytes (splitOnChar ',' ptext) ≤ bs) :
    parseSingleCommand bs cb (name ++ '=' :: ptext) =
      (.AT_PR_OK,
        [.onSet (cb.getATCommandId name) (splitOnChar ',' ptext),
         .response (printResultResponse
           (cb.onSet (cb.getATCommandId name) (splitOnChar ',' ptext)))],
        name.length + 1 + paramBytes (splitOnChar ',' ptext)) := by
  have hst := storeParams_spec bs (splitOnChar ',' ptext) (name.length + 1) hfit
  rw [parseSingleCommand_set bs cb name ptext hname halpha (by omega) hq hid, hst]
  simp

/-- Witness for claim C5: parsing the set command "name=a,b,,c" with
demoCallbacks (name resolves to id 3) passes onSet exactly the four
parameter strings "a", "b", "", "c" in that order. -/
theorem set_parameters_split_witness :
    parseSingleCommand 42 demoCallbacks
        (['n', 'a', 'm', 'e'] ++ '=' :: ['a', ',', 'b', ',', ',', 'c']) =
      (.AT_PR_OK,
        [.onSet 3 [['a'], ['b'], [], ['c']], .response ['O', 'K']],
        12) :=
  (set_parameters_split_on_commas 42 demoCallbacks ['n', 'a', 'm', 'e']
      ['a', ',', 'b', ',', ',', 'c'] (by decide) (by decide) (by decide) (by decide)
      (by decide)).trans (by decide)

/-- Claim C1: the scratch buffer never holds more than the configured size
after parsing any line; a command name whose copy (with terminator) would
exceed the buffer yields INVALID_CMD1 with nothing written (occupancy 0);
set parameters whose total stored length would exceed the remaining
capacity yield SET_OVERFLOW with occupancy still within the buffer. -/
theorem scratch_buffer_never_overflows (bs : Nat) (ocb : Option NuATCommandCallbacks)
    (cb : NuATCommandCallbacks) (line cmd name ptext : List Char)
    (hbig : bs < (nameOf cmd).length + 1)
    (hname : name ≠ []) (halpha : name.all Char.isAlpha = true)
    (hq : ptext.head? ≠ some '?') (hid : 0 ≤ cb.getATCommandId name)
    (hnfit : name.length + 1 ≤ bs)
    (hover : bs < name.length + 1 + paramBytes (splitOnChar ',' ptext)) :
    (parseCommandLine bs ocb line).2.2 ≤ bs
    ∧ parseSingleCommand bs cb cmd = (.AT_PR_INVALID_CMD1, [.response ERROR_text], 0)
    ∧ (parseSingleCommand bs cb (name ++ '=' :: ptext)).1 = .AT_PR_SET_OVERFLOW
    ∧ (parseSingleCommand bs cb (name ++ '=' :: ptext)).2.2 ≤ bs := by
  refine ⟨parseCommandLine_occ_le bs ocb line, ?_, ?_, parseSingleCommand_occ_le _ _ _⟩
  · unfold parseSingleCommand
    rw [if_pos (Or.inl hbig)]
  · have hsp : (storeParams bs (name.length + 1) (splitOnChar ',' ptext)).2 = false :=
      storeParams_overflow bs (splitOnChar ',' ptext) (name.length + 1) hnfit hover
    rw [parseSingleCommand_set bs cb name ptext hname halpha hnfit hq hid]
    rw [if_neg (by simp [hsp])]

/-- Witness for claim C1 with buffer size 5: the line "AT&F" stays within
the buffer; the eleven-letter name TOOLONGNAME is rejected as INVALID_CMD1
with occupancy 0; the set command AB=xx,yy needs 3 + 6 = 9 bytes and is
rejected as SET_OVERFLOW with occupancy within the buffer. -/
theorem scratch_buffer_never_overflows_witness :
    (parseCommandLine 5 (some demoCallbacks) ['A', 'T', '&', 'F']).2.2 ≤ 5
    ∧ parseSingleCommand 5 demoCallbacks
        ['T', 'O', 'O', 'L', 'O', 'N', 'G', 'N', 'A', 'M', 'E'] =
        (.AT_PR_INVALID_CMD1, [.response ERROR_text], 0)
    ∧ (parseSingleCommand 5 demoCallbacks
        (['A', 'B'] ++ '=' :: ['x', 'x', ',', 'y', 'y'])).1 = .AT_PR_SET_OVERFLOW
    ∧ (parseSingleCommand 5 demoCallbacks
        (['A', 'B'] ++ '=' :: ['x', 'x', ',', 'y', 'y'])).2.2 ≤ 5 :=
  scratch_buffer_never_overflows 5 (some demoCallbacks) demoCallbacks
    ['A', 'T', '&', 'F'] ['T', 'O', 'O', 'L', 'O', 'N', 'G', 'N', 'A', 'M', 'E']
    ['A', 'B'] ['x', 'x', ',', 'y', 'y'] (by decide) (by decide) (by decide)
    (by decide) (by decide) (by decide) (by decide)

/-- Claim C2: if the i-th ";"-separated command of an AT line fails to
parse, onFinished is still invoked with index i and that result, the
line's final parsing result is that result, no onFinished report carries
an index beyond i, and the whole parse outcome equals that of the line
truncated after command i: later commands are neither parsed nor
dispatched. -/
theorem command_error_reported_then_line_abandoned (bs : Nat)
    (cb : NuATCommandCallbacks) (line : List Char) (i : Nat)
    (hat : line.take 2 = ['A', 'T']) (hne : line.drop 2 ≠ [])
    (hi : i < (splitOnChar ';' (line.drop 2)).length)
    (hok : ∀ c ∈ (splitOnChar ';' (line.drop 2)).take i,
      (parseSingleCommand bs cb c).1 = .AT_PR_OK)
    (herr : (parseSingleCommand bs cb
      ((splitOnChar ';' (line.drop 2)).get ⟨i, hi⟩)).1 ≠ .AT_PR_OK) :
    ATEvent.onFinished i
        ((parseSingleCommand bs cb ((splitOnChar ';' (line.drop 2)).get ⟨i, hi⟩)).1)
        ∈ (parseCommandLine bs (some cb) line).2.1
    ∧ (parseCommandLine bs (some cb) line).1 =
        (parseSingleCommand bs cb ((splitOnChar ';' (line.drop 2)).get ⟨i, hi⟩)).1
    ∧ (∀ (j : Nat) (res : NuATParsingResult_t),
        ATEvent.onFinished j res ∈ (parseCommandLine bs (some cb) line).2.1 → j ≤ i)
    ∧ parseCommandLine bs (some cb) line =
        parseCommands bs cb 0 ((splitOnChar ';' (line.drop 2)).take (i + 1)) := by
  have hL : parseCommandLine bs (some cb) line =
      parseCommands bs cb 0 (splitOnChar ';' (line.drop 2)) := by
    rw [parseCommandLine_some, if_pos hat, if_neg hne]
  obtain ⟨e1, e2, e3⟩ :=
    parseCommands_stop bs cb (splitOnChar ';' (line.drop 2)) 0 i hi hok herr
  rw [hL]
  refine ⟨by simpa using e3, e2, ?_, e1⟩
  intro j res hj
  rw [e1] at hj
  have hlt := parseCommands_finished_lt bs cb
    ((splitOnChar ';' (line.drop 2)).take (i + 1)) 0 j res hj
  have hlen : ((splitOnChar ';' (line.drop 2)).take (i + 1)).length ≤ i + 1 := by
    rw [List.length_take]
    exact min_le_left _ _
  omega

/-- Witness for claim C2 at the concrete line "ATF;1;H": the command "1"
at index 1 fails with INVALID_CMD2 (non-alphabetic name), it is reported,
and the command "H" at index 2 is never parsed. -/
theorem command_error_reported_witness :
    ATEvent.onFinished 1
        ((parseSingleCommand 42 demoCallbacks
          ((splitOnChar ';' (List.drop 2 ['A', 'T', 'F', ';', '1', ';', 'H'])).get
            ⟨1, by decide⟩)).1)
        ∈ (parseCommandLine 42 (some demoCallbacks)
            ['A', 'T', 'F', ';', '1', ';', 'H']).2.1
    ∧ (parseCommandLine 42 (some demoCallbacks) ['A', 'T', 'F', ';', '1', ';', 'H']).1 =
        (parseSingleCommand 42 demoCallbacks
          ((splitOnChar ';' (List.drop 2 ['A', 'T', 'F', ';', '1', ';', 'H'])).get
            ⟨1, by decide⟩)).1 :=
  have h := command_error_reported_then_line_abandoned 42 demoCallbacks
    ['A', 'T', 'F', ';', '1', ';', 'H'] 1 (by decide) (by decide) (by decide)
    (by decide) (by decide)
  ⟨h.1, h.2.1⟩

/-- Witness for claim C10: a service whose connected flag is false reports
an MTU of 0. -/
theorem getMTU_zero_witness :
    getMTU (NordicUARTService.mk false (some (NimBLEServer.mk [7] (fun x => x + 20)))) = 0
    ∧ getMTU (NordicUARTService.mk true (some (NimBLEServer.mk [] (fun x => x + 20)))) = 0 :=
  ⟨(getMTU_zero_or_first_peer _).1 rfl,
   (getMTU_zero_or_first_peer _).2.2.1 (NimBLEServer.mk [] (fun x => x + 20)) rfl rfl⟩

end NuS
